import Mathlib

/-!
# Verification of the muSE functional-object core

Shallow embedding of the hashtable, vector and file-port components of the
muSE runtime (`muse_builtin_hashtable.c`, `muse_builtin_vector.c`,
`muse_builtin_fileport.c`), together with proofs of the testable properties
stated in the specification.

Modelling conventions:
* `muse_cell` is an opaque heap handle; we model it as `Int`, with `MUSE_NIL = 0`.
  NIL doubles as "false"/"absent" exactly as in the source.
* `muse_hash` lives outside the embedded files; every hashtable operation is
  parametrised by an arbitrary hash function `hash : Cell → Int` (it is a pure
  function of the cell, which is all the code relies on).
* A bucket (C: a `muse_cell` heading an association list of `(key . value)`
  cons pairs) is a `List (Cell × Cell)`.  The C struct keeps `bucket_count`
  equal to the length of the calloc'ed bucket array at all times, so the model
  stores only the bucket list and derives `bucket_count` from its length.
* C `int` arithmetic on counts is modelled by `Int` (the claims are far from
  the overflow range); the C `%` operator on signed ints is truncated
  division, modelled by `Int.tmod`.
* Out-of-range accesses that the C source guards with `muse_assert` are
  modelled by `Option` results (`none` = assertion failure / undefined
  behaviour in a release build).
-/

namespace MuSE

/-- A muSE cell handle (`muse_cell`).  Opaque; `0` is `MUSE_NIL`. -/
abbrev Cell := Int

/-- The distinguished empty/absence value `MUSE_NIL`. -/
def MUSE_NIL : Cell := 0

/-- A hashtable bucket: an association list of `(key . value)` pairs. -/
abbrev Bucket := List (Cell × Cell)

/-- Read bucket `i` of the bucket array; out of range reads give `[]`
(the C code never indexes out of range, `bucket_for_hash` is `< bucket_count`). -/
def bget : List Bucket → Nat → Bucket
  | [], _ => []
  | b :: _, 0 => b
  | _ :: bs, i + 1 => bget bs i

/-- Write bucket `i` of the bucket array (no-op out of range). -/
def bset : List Bucket → Nat → Bucket → List Bucket
  | [], _, _ => []
  | _ :: bs, 0, v => v :: bs
  | b :: bs, i + 1, v => b :: bset bs i v

/-- `hashtable_t` (muse_builtin_hashtable.c:59-66): pair count plus the bucket
array.  `bucket_count` is the length of `buckets` (the C code keeps the two in
sync at every assignment). -/
structure hashtable_t where
  count : Int
  buckets : List Bucket
deriving DecidableEq

/-- The `bucket_count` field of the C struct (always equal to the length of the
calloc'ed `buckets` array). -/
def hashtable_t.bucket_count (h : hashtable_t) : Nat := h.buckets.length

/-- `hashtable_init` (muse_builtin_hashtable.c:68-78): bucket count is the
requested size, or 7 when no size argument is given; buckets are calloc'ed
(all NIL, i.e. empty association lists).  Note: the requested size is *not*
forced odd here.  (A negative requested size is undefined behaviour in the C;
we model the allocation count with `Int.toNat`.) -/
def hashtable_init (size : Option Int) : hashtable_t :=
  let bc : Int := match size with
    | some n => n
    | none => 7
  { count := 0, buckets := List.replicate bc.toNat [] }

/-- `bucket_for_hash` (muse_builtin_hashtable.c:146-149):
`((hash % modulus) + modulus) % modulus` with C's truncated `%`. -/
def bucket_for_hash (hash : Int) (modulus : Nat) : Nat :=
  ((hash.tmod modulus + modulus).tmod modulus).toNat

/-- The body of the relink loop of `hashtable_rehash`
(muse_builtin_hashtable.c:166-175): the pair cell at the head of the traversal
is pushed onto the front of the new bucket its key hashes to. -/
def rehash_step (hash : Cell → Int) (nbc : Nat) (bs : List Bucket)
    (kv : Cell × Cell) : List Bucket :=
  let b := bucket_for_hash (hash kv.1) nbc
  bset bs b (kv :: bget bs b)

/-- `hashtable_rehash` (muse_builtin_hashtable.c:151-183): the new bucket count
is forced odd by OR-ing with 1; a fresh bucket array is calloc'ed and every
existing pair cell is unlinked from its old bucket and pushed onto the front of
the bucket its key hashes to under the new modulus (traversal is bucket-major,
front-to-back; no new pair cells are allocated). -/
def hashtable_rehash (hash : Cell → Int) (h : hashtable_t) (new_bucket_count : Nat) :
    hashtable_t :=
  let nbc := new_bucket_count ||| 1
  { count := h.count,
    buckets := h.buckets.flatten.foldl (rehash_step hash nbc)
      (List.replicate nbc []) }

/-- `hashtable_add` (muse_builtin_hashtable.c:217-244): if `count + 1` would
reach `2 * bucket_count`, rehash to twice the bucket count first; then prepend
the new `(key . value)` pair to the bucket the key hashes to and increment
`count`.  (The C asserts `value != MUSE_NIL`; all call sites guarantee it.) -/
def hashtable_add (hash : Cell → Int) (h : hashtable_t) (key value : Cell) :
    hashtable_t :=
  let h' := if h.count + 1 ≥ 2 * (h.bucket_count : Int)
            then hashtable_rehash hash h (h.bucket_count * 2)
            else h
  let bucket := bucket_for_hash (hash key) h'.bucket_count
  { count := h'.count + 1,
    buckets := bset h'.buckets bucket ((key, value) :: bget h'.buckets bucket) }

/-- `muse_assoc_iter` as used by `hashtable_get` (muse_builtin_hashtable.c:246-255):
linear scan of a bucket's association list for the first pair whose key is
(structurally) equal to `key`. -/
def assoc_find (key : Cell) : Bucket → Option (Cell × Cell)
  | [] => none
  | kv :: rest => if kv.1 = key then some kv else assoc_find key rest

/-- `hashtable_get` (muse_builtin_hashtable.c:246-255): locate the `(key . value)`
pair for `key` in the bucket `hash(key)` selects, or `none`. -/
def hashtable_get (hash : Cell → Int) (h : hashtable_t) (key : Cell) :
    Option (Cell × Cell) :=
  assoc_find key (bget h.buckets (bucket_for_hash (hash key) h.bucket_count))

/-- In-place value replacement of the first pair with the given key
(`_sett( _head(*kvpair), value )`, muse_builtin_hashtable.c:279). -/
def assoc_replace (key value : Cell) : Bucket → Bucket
  | [] => []
  | kv :: rest =>
    if kv.1 = key then (kv.1, value) :: rest else kv :: assoc_replace key value rest

/-- Unlinking of the first pair with the given key
(`(*kvpair) = _tail( *kvpair )`, muse_builtin_hashtable.c:286). -/
def assoc_remove (key : Cell) : Bucket → Bucket
  | [] => []
  | kv :: rest => if kv.1 = key then rest else kv :: assoc_remove key rest

/-- The two-argument path of `fn_hashtable` (muse_builtin_hashtable.c:257-310),
i.e. invoking the hashtable with `(key, value)`: if the key is present, a
non-NIL value replaces the pair's value in place, a NIL value unlinks the pair
and decrements `count`; if the key is absent, a non-NIL value is added via
`hashtable_add` and a NIL value is a no-op. -/
def fn_hashtable_put (hash : Cell → Int) (h : hashtable_t) (key value : Cell) :
    hashtable_t :=
  let b := bucket_for_hash (hash key) h.bucket_count
  let bucket := bget h.buckets b
  match assoc_find key bucket with
  | some _ =>
    if value = MUSE_NIL then
      { count := h.count - 1, buckets := bset h.buckets b (assoc_remove key bucket) }
    else
      { count := h.count, buckets := bset h.buckets b (assoc_replace key value bucket) }
  | none =>
    if value = MUSE_NIL then h
    else hashtable_add hash h key value

/-- The one-argument path of `fn_hashtable` (muse_builtin_hashtable.c:312-317),
i.e. invoking the hashtable with a single `key`: the value half of the located
pair, or `MUSE_NIL` when the key is absent. -/
def fn_hashtable_get (hash : Cell → Int) (h : hashtable_t) (key : Cell) : Cell :=
  match hashtable_get hash h key with
  | some kv => kv.2
  | none => MUSE_NIL

/-- A sequence of insertions performed through the hashtable's call entry
point (`fn_hashtable` with two arguments, applied left to right). -/
def hashtable_insert_seq (hash : Cell → Int) (h : hashtable_t)
    (kvs : List (Cell × Cell)) : hashtable_t :=
  kvs.foldl (fun acc kv => fn_hashtable_put hash acc kv.1 kv.2) h

/-- Well-formedness of a hashtable state, as maintained by the code and stated
in the spec's data model: at least one bucket, every stored pair sits in the
bucket its key hashes to, and stored keys are pairwise distinct. -/
def hashtable_t.WF (hash : Cell → Int) (h : hashtable_t) : Prop :=
  0 < h.buckets.length ∧
  (∀ i, i < h.buckets.length → ∀ kv ∈ bget h.buckets i,
     bucket_for_hash (hash kv.1) h.buckets.length = i) ∧
  (h.buckets.flatten.map Prod.fst).Nodup

instance (hash : Cell → Int) (h : hashtable_t) : Decidable (h.WF hash) := by
  unfold hashtable_t.WF
  infer_instance

/-- `vector_t` (muse_builtin_vector.c:51-56): a `length`-element slot array.
`length` is the length of the calloc'ed `slots` array (the code keeps the two
in sync), so the model stores only the slot list. -/
structure vector_t where
  slots : List Cell
deriving DecidableEq

/-- The `length` field of the C struct. -/
def vector_t.length (v : vector_t) : Nat := v.slots.length

/-- `vector_init` / `vector_init_with_length` (muse_builtin_vector.c:58-71):
a requested length `> 0` calloc's that many NIL slots; otherwise the vector
keeps its zero-initialised state (length 0, no slots). -/
def vector_init (requested : Int) : vector_t :=
  { slots := List.replicate requested.toNat MUSE_NIL }

/-- The get path of `fn_vector` / `muse_vector_get` (muse_builtin_vector.c:121-151,
548-559): the slot value at `index`; the access is guarded by
`muse_assert( index >= 0 && index < v->length )`, modelled as `none` out of
range (fatal assertion in diagnostic builds, undefined behaviour otherwise). -/
def fn_vector_get (v : vector_t) (index : Int) : Option Cell :=
  if 0 ≤ index ∧ index < (v.slots.length : Int) then
    some (v.slots.getD index.toNat MUSE_NIL)
  else none

/-- The set path of `fn_vector` / `muse_vector_put` (muse_builtin_vector.c:121-151,
564-576): store `value` in the slot at `index` under the same
`muse_assert( index >= 0 && index < v->length )` guard. -/
def fn_vector_set (v : vector_t) (index : Int) (value : Cell) : Option vector_t :=
  if 0 ≤ index ∧ index < (v.slots.length : Int) then
    some { slots := v.slots.set index.toNat value }
  else none

/-- `muse_array_to_list` as called by `fn_vector_to_list`
(muse_builtin_vector.c:492): read `count` cells starting at the array head,
advancing the pointer by `step` between reads. -/
def muse_array_to_list (count : Nat) (xs : List Cell) (step : Nat) : List Cell :=
  match count with
  | 0 => []
  | c + 1 => xs.getD 0 MUSE_NIL :: muse_array_to_list c (xs.drop step) step

/-- `fn_vector_to_list` (muse_builtin_vector.c:470-494) with no optional
arguments: `from = 0`, `count = length - from = length`, `step = 1`. -/
def fn_vector_to_list (v : vector_t) : List Cell :=
  muse_array_to_list v.slots.length v.slots 1

/-- `fn_list_to_vector` (muse_builtin_vector.c:442-460): a non-empty list is
copied element-wise into a fresh vector of the list's length; the empty list
yields `MUSE_NIL`, not a vector (`none` here). -/
def fn_list_to_vector (l : List Cell) : Option vector_t :=
  if 0 < l.length then some { slots := l } else none

/-- The mode-flag parsing loop of `fileport_init`
(muse_builtin_fileport.c:47-59), verbatim: each remaining argument is compared
against the symbol `for-reading`; a match sets the read flag, and the `else if`
branch compares against the *same* symbol `for-reading` again (muse_builtin_fileport.c:57)
before setting the write flag.  `for_reading` is the cell of the interned
symbol `'for-reading`; any other flag cell (in particular `'for-writing`) is
a different cell. -/
def fileport_parse_flags (for_reading : Cell) (args : List Cell) : Bool × Bool :=
  args.foldl
    (fun rw flag =>
      if flag = for_reading then (true, rw.2)
      else if flag = for_reading then (rw.1, true)
      else rw)
    (false, false)

/-- The `fopen` mode string chosen by `fileport_init`
(muse_builtin_fileport.c:68) from the parsed read/write flags. -/
def fileport_fopen_mode (read_flag write_flag : Bool) : String :=
  if read_flag then (if write_flag then "rwb" else "rb")
  else (if write_flag then "wb" else "rb")

/-- `fileport_t` (muse_builtin_fileport.c:21-27), restricted to the fields the
claims are about: the `FILE*` stream handle (`none` = NULL), the raw `int`
descriptor, and the port's sticky error/eof state.  The functional-object
protocol zero-initialises the whole block before `init` runs, so a fresh port
has `file = none`, `desc = 0`, `error = 0`, `eof = 0`. -/
structure fileport_t where
  file : Option Nat
  desc : Int
  error : Int
  eof : Int
deriving DecidableEq

/-- The stream-opening tail of `fileport_init` (muse_builtin_fileport.c:66-83):
on a failed `muse_fopen` the function returns at once, leaving the
zero-initialised port untouched (no stream handle, `desc` still 0, no error
signalled); on success it records the handle and its descriptor and clears the
error/eof flags.  `fileno` maps the opened handle to its OS descriptor;
`open_result` is what `muse_fopen` returned. -/
def fileport_init (fileno : Nat → Int) (open_result : Option Nat) : fileport_t :=
  match open_result with
  | none => { file := none, desc := 0, error := 0, eof := 0 }
  | some f => { file := some f, desc := fileno f, error := 0, eof := 0 }

/-- The I/O action a port operation performs: byte I/O through the buffered
`FILE*` handle, raw byte I/O on an `int` descriptor, or detecting and
reporting that the port has no stream (the behaviour the spec prescribes for
ports whose open failed; the source never produces it). -/
inductive port_io_action where
  | fromFile (f : Nat)
  | fromDesc (d : Int)
  | reportMissingStream
deriving DecidableEq

/-- `fileport_read` (muse_builtin_fileport.c:111-120): `fread` on the `FILE*`
handle when there is one, otherwise raw `read` on the stored descriptor. -/
def fileport_read (p : fileport_t) : port_io_action :=
  match p.file with
  | some f => port_io_action.fromFile f
  | none => port_io_action.fromDesc p.desc

/-- `fileport_write` (muse_builtin_fileport.c:122-130): `fwrite` on the `FILE*`
handle when there is one, otherwise raw `write` on the stored descriptor. -/
def fileport_write (p : fileport_t) : port_io_action :=
  match p.file with
  | some f => port_io_action.fromFile f
  | none => port_io_action.fromDesc p.desc

/-- The 3-byte UTF-8 byte-order mark `k_utf8_header`
(muse_builtin_fileport.c:399). -/
def k_utf8_header : List Nat := [0xef, 0xbb, 0xbf]

/-- `write_utf8_header` (muse_builtin_fileport.c:390-403): on Windows builds
(`MUSE_PLATFORM_WINDOWS`), emit the 3-byte marker iff the stream is at offset 0
(i.e. nothing has been written yet); on other platforms emit nothing. -/
def write_utf8_header (platform_windows : Bool) (written_so_far : List Nat) :
    List Nat :=
  if platform_windows ∧ written_so_far.length = 0 then k_utf8_header else []

/-- The full byte contents of a freshly opened file after writing payload `S`
through the port: the header `write_utf8_header` emits at offset 0 followed
by `S`. -/
def fileport_written_contents (platform_windows : Bool) (S : List Nat) :
    List Nat :=
  write_utf8_header platform_windows [] ++ S

/-- `discard_utf8_header` (muse_builtin_fileport.c:405-434), acting on a stream
opened for reading at offset 0 with contents `F`; the result is the byte
sequence subsequent reads observe.  Up to 3 bytes are peeked; if exactly 3
bytes were read and they are the UTF-8 marker they are discarded, otherwise
the peeked bytes are pushed back into the input buffer ahead of the rest of
the stream. -/
def discard_utf8_header (F : List Nat) : List Nat :=
  let c := F.take 3
  if c.length = 3 ∧ c = k_utf8_header then F.drop 3
  else c ++ F.drop c.length

/-- Writing payload `S` through a fresh port and reopening the resulting file
for reading: the byte sequence the first reads observe. -/
def fileport_reopen_read (platform_windows : Bool) (S : List Nat) : List Nat :=
  discard_utf8_header (fileport_written_contents platform_windows S)

/-! ## Basic lemmas about the bucket-array primitives -/

theorem length_bset (bs : List Bucket) (i : Nat) (v : Bucket) :
    (bset bs i v).length = bs.length := by
  induction bs generalizing i with
  | nil => rfl
  | cons b bs ih =>
    cases i with
    | zero => rfl
    | succ i => simp [bset, ih]

theorem bget_bset_self (bs : List Bucket) (i : Nat) (v : Bucket)
    (hi : i < bs.length) : bget (bset bs i v) i = v := by
  induction bs generalizing i with
  | nil => simp at hi
  | cons b bs ih =>
    cases i with
    | zero => rfl
    | succ i => exact ih i (by simpa using hi)

theorem bget_bset_ne (bs : List Bucket) (i j : Nat) (v : Bucket)
    (hne : j ≠ i) : bget (bset bs i v) j = bget bs j := by
  induction bs generalizing i j with
  | nil => rfl
  | cons b bs ih =>
    cases i with
    | zero =>
      cases j with
      | zero => exact absurd rfl hne
      | succ j => rfl
    | succ i =>
      cases j with
      | zero => rfl
      | succ j => exact ih i j fun hh => hne (by omega)

theorem bget_eq_nil_of_le (bs : List Bucket) (i : Nat)
    (h : bs.length ≤ i) : bget bs i = [] := by
  induction bs generalizing i with
  | nil => rfl
  | cons b bs ih =>
    cases i with
    | zero => simp at h
    | succ i => exact ih i (by simpa using h)

theorem bget_sublist_flatten (bs : List Bucket) (i : Nat) :
    (bget bs i).Sublist bs.flatten := by
  induction bs generalizing i with
  | nil => simp [bget]
  | cons b bs ih =>
    cases i with
    | zero => exact List.sublist_append_left b bs.flatten
    | succ i => exact (ih i).trans (List.sublist_append_right _ _)

theorem mem_bget_flatten {bs : List Bucket} {i : Nat} {kv : Cell × Cell}
    (h : kv ∈ bget bs i) : kv ∈ bs.flatten :=
  (bget_sublist_flatten bs i).subset h

theorem mem_flatten_iff_bget {bs : List Bucket} {kv : Cell × Cell} :
    kv ∈ bs.flatten ↔ ∃ i, i < bs.length ∧ kv ∈ bget bs i := by
  induction bs with
  | nil => simp [bget]
  | cons b bs ih =>
    simp only [List.flatten_cons, List.mem_append, ih]
    constructor
    · rintro (hb | ⟨i, hi, hmem⟩)
      · exact ⟨0, by simp, hb⟩
      · exact ⟨i + 1, by simpa using hi, hmem⟩
    · rintro ⟨i, hi, hmem⟩
      cases i with
      | zero => exact Or.inl hmem
      | succ i => exact Or.inr ⟨i, by simpa using hi, hmem⟩

theorem flatten_bset_cons_perm (bs : List Bucket) (i : Nat) (x : Cell × Cell)
    (hi : i < bs.length) :
    ((bset bs i (x :: bget bs i)).flatten).Perm (x :: bs.flatten) := by
  induction bs generalizing i with
  | nil => simp at hi
  | cons b bs ih =>
    cases i with
    | zero => exact List.Perm.refl _
    | succ i =>
      have h' := ih i (by simpa using hi)
      have h1 : (b ++ (bset bs i (x :: bget bs i)).flatten).Perm
          (b ++ (x :: bs.flatten)) := List.Perm.append_left b h'
      have h2 : (b ++ (x :: bs.flatten)).Perm (x :: (b ++ bs.flatten)) :=
        List.perm_middle
      exact h1.trans h2

theorem bget_replicate_nil (n i : Nat) :
    bget (List.replicate n ([] : Bucket)) i = [] := by
  induction n generalizing i with
  | zero => rfl
  | succ n ih =>
    cases i with
    | zero => rfl
    | succ i => exact ih i

theorem flatten_replicate_nil (n : Nat) :
    (List.replicate n ([] : Bucket)).flatten = [] := by
  induction n with
  | zero => rfl
  | succ n ih => simp [ih]

/-! ## OR-with-1 and the bucket index -/

theorem lor_one_eq (m : Nat) : m ||| 1 = 2 * (m / 2) + 1 := by
  apply Nat.eq_of_testBit_eq
  intro i
  cases i with
  | zero =>
    have h1 : (2 * (m / 2) + 1) % 2 = 1 := by omega
    simp [Nat.testBit_or, Nat.testBit_zero, h1]
  | succ i =>
    have h2 : (2 * (m / 2) + 1) / 2 = m / 2 := by omega
    rw [Nat.testBit_or, Nat.testBit_add_one, Nat.testBit_add_one,
      Nat.testBit_add_one, h2]
    simp

theorem lor_one_mod_two (m : Nat) : (m ||| 1) % 2 = 1 := by
  rw [lor_one_eq]; omega

theorem lor_one_pos (m : Nat) : 0 < m ||| 1 := by
  rw [lor_one_eq]; omega

theorem le_lor_one (m : Nat) : m ≤ m ||| 1 := by
  rw [lor_one_eq]; omega

theorem bucket_for_hash_lt (hsh : Int) (m : Nat) (hm : 0 < m) :
    bucket_for_hash hsh m < m := by
  unfold bucket_for_hash
  have h1 : (hsh.tmod m + m).tmod m < (m : Int) :=
    Int.tmod_lt_of_pos _ (by exact_mod_cast hm)
  omega

/-! ## Association-list lemmas -/

theorem assoc_find_some {key : Cell} {l : Bucket} {kv : Cell × Cell}
    (h : assoc_find key l = some kv) : kv.1 = key ∧ kv ∈ l := by
  induction l with
  | nil => simp [assoc_find] at h
  | cons a rest ih =>
    by_cases ha : a.1 = key
    · simp only [assoc_find, if_pos ha, Option.some.injEq] at h
      exact ⟨h ▸ ha, h ▸ List.mem_cons_self a rest⟩
    · simp only [assoc_find, if_neg ha] at h
      obtain ⟨h1, h2⟩ := ih h
      exact ⟨h1, List.mem_cons_of_mem a h2⟩

theorem assoc_find_eq_none_iff {key : Cell} {l : Bucket} :
    assoc_find key l = none ↔ ∀ kv ∈ l, kv.1 ≠ key := by
  induction l with
  | nil => simp [assoc_find]
  | cons a rest ih =>
    by_cases ha : a.1 = key
    · simp [assoc_find, ha]
    · simp [assoc_find, ha, ih]

theorem assoc_find_ne_none_of_mem {key : Cell} {l : Bucket} {kv : Cell × Cell}
    (hmem : kv ∈ l) (hk : kv.1 = key) : assoc_find key l ≠ none := fun hnone =>
  (assoc_find_eq_none_iff.1 hnone) kv hmem hk

theorem count_key_eq_zero_iff {key : Cell} {l : Bucket} :
    (l.map Prod.fst).count key = 0 ↔ ∀ kv ∈ l, kv.1 ≠ key := by
  rw [List.count_eq_zero]
  constructor
  · intro h kv hmem hk
    exact h (hk ▸ List.mem_map_of_mem Prod.fst hmem)
  · intro h hmem
    obtain ⟨kv, hkv, hfst⟩ := List.mem_map.1 hmem
    exact h kv hkv hfst

theorem assoc_replace_keys (key value : Cell) (l : Bucket) :
    (assoc_replace key value l).map Prod.fst = l.map Prod.fst := by
  induction l with
  | nil => rfl
  | cons a rest ih => by_cases ha : a.1 = key <;> simp [assoc_replace, ha, ih]

theorem assoc_find_replace {key value : Cell} {l : Bucket} {kv : Cell × Cell}
    (h : assoc_find key l = some kv) :
    assoc_find key (assoc_replace key value l) = some (kv.1, value) := by
  induction l with
  | nil => simp [assoc_find] at h
  | cons a rest ih =>
    by_cases ha : a.1 = key
    · simp only [assoc_find, if_pos ha, Option.some.injEq] at h
      subst h
      simp [assoc_replace, ha, assoc_find]
    · simp only [assoc_find, if_neg ha] at h
      simp [assoc_replace, ha, assoc_find, ih h]

theorem assoc_find_replace_ne {key key' value : Cell} (hne : key' ≠ key)
    (l : Bucket) :
    assoc_find key' (assoc_replace key value l) = assoc_find key' l := by
  have hne' : key ≠ key' := fun hh => hne hh.symm
  induction l with
  | nil => rfl
  | cons a rest ih =>
    by_cases ha : a.1 = key
    · simp [assoc_replace, assoc_find, ha, hne', ih]
    · by_cases ha' : a.1 = key' <;>
        simp [assoc_replace, assoc_find, ha, ha', hne, ih]

theorem assoc_remove_find_none {key : Cell} {l : Bucket}
    (h : (l.map Prod.fst).count key ≤ 1) :
    assoc_find key (assoc_remove key l) = none := by
  induction l with
  | nil => rfl
  | cons a rest ih =>
    by_cases ha : a.1 = key
    · simp only [assoc_remove, if_pos ha]
      apply assoc_find_eq_none_iff.2
      apply count_key_eq_zero_iff.1
      have hc : (rest.map Prod.fst).count key + 1 ≤ 1 := by
        simpa [List.count_cons, ha] using h
      omega
    · simp only [assoc_remove, if_neg ha, assoc_find, if_neg ha]
      apply ih
      have : ((a :: rest).map Prod.fst).count key
          = (rest.map Prod.fst).count key := by
        simp [List.count_cons, ha]
      omega

/-! ## Rehash lemmas -/

theorem rehash_step_length (hash : Cell → Int) (nbc : Nat) (bs : List Bucket)
    (kv : Cell × Cell) : (rehash_step hash nbc bs kv).length = bs.length := by
  unfold rehash_step
  exact length_bset bs _ _

theorem foldl_rehash_step_length (hash : Cell → Int) (nbc : Nat) :
    ∀ (l : List (Cell × Cell)) (bs : List Bucket),
      (l.foldl (rehash_step hash nbc) bs).length = bs.length := by
  intro l
  induction l with
  | nil => intro bs; rfl
  | cons kv l ih =>
    intro bs
    rw [List.foldl_cons, ih, rehash_step_length]

theorem foldl_rehash_step_perm (hash : Cell → Int) (nbc : Nat) (hn : 0 < nbc) :
    ∀ (l : List (Cell × Cell)) (bs : List Bucket), bs.length = nbc →
      ((l.foldl (rehash_step hash nbc) bs).flatten).Perm (l ++ bs.flatten) := by
  intro l
  induction l with
  | nil =>
    intro bs _
    rw [List.nil_append]
    exact List.Perm.refl _
  | cons kv l ih =>
    intro bs hbs
    rw [List.foldl_cons]
    have hlen : (rehash_step hash nbc bs kv).length = nbc := by
      rw [rehash_step_length, hbs]
    have h1 := ih (rehash_step hash nbc bs kv) hlen
    have h2 : ((rehash_step hash nbc bs kv).flatten).Perm (kv :: bs.flatten) := by
      unfold rehash_step
      exact flatten_bset_cons_perm bs _ kv
        (by rw [hbs]; exact bucket_for_hash_lt _ _ hn)
    have h3 := List.Perm.append_left l h2
    have h4 : (l ++ (kv :: bs.flatten)).Perm (kv :: (l ++ bs.flatten)) :=
      List.perm_middle
    exact h1.trans (h3.trans h4)

theorem foldl_rehash_step_placement (hash : Cell → Int) (nbc : Nat)
    (hn : 0 < nbc) :
    ∀ (l : List (Cell × Cell)) (bs : List Bucket), bs.length = nbc →
      (∀ i, ∀ kv ∈ bget bs i, bucket_for_hash (hash kv.1) nbc = i) →
      ∀ i, ∀ kv ∈ bget (l.foldl (rehash_step hash nbc) bs) i,
        bucket_for_hash (hash kv.1) nbc = i := by
  intro l
  induction l with
  | nil => intro bs _ hbase; exact hbase
  | cons kv l ih =>
    intro bs hbs hbase
    rw [List.foldl_cons]
    apply ih (rehash_step hash nbc bs kv) (by rw [rehash_step_length, hbs])
    intro i kv' hkv'
    by_cases hib : i = bucket_for_hash (hash kv.1) nbc
    · subst hib
      unfold rehash_step at hkv'
      rw [bget_bset_self] at hkv'
      · rcases List.mem_cons.1 hkv' with hkv' | hkv'
        · rw [hkv']
        · exact hbase _ kv' hkv'
      · rw [hbs]; exact bucket_for_hash_lt _ _ hn
    · unfold rehash_step at hkv'
      rw [bget_bset_ne _ _ _ _ hib] at hkv'
      exact hbase i kv' hkv'

theorem hashtable_rehash_count (hash : Cell → Int) (h : hashtable_t) (n : Nat) :
    (hashtable_rehash hash h n).count = h.count := rfl

theorem hashtable_rehash_bucket_count (hash : Cell → Int) (h : hashtable_t)
    (n : Nat) : (hashtable_rehash hash h n).bucket_count = n ||| 1 := by
  show (h.buckets.flatten.foldl (rehash_step hash (n ||| 1))
    (List.replicate (n ||| 1) [])).length = n ||| 1
  rw [foldl_rehash_step_length]
  simp

theorem hashtable_rehash_flatten_perm (hash : Cell → Int) (h : hashtable_t)
    (n : Nat) :
    ((hashtable_rehash hash h n).buckets.flatten).Perm h.buckets.flatten := by
  have hp := foldl_rehash_step_perm hash (n ||| 1) (lor_one_pos n)
    h.buckets.flatten (List.replicate (n ||| 1) []) (by simp)
  simpa [flatten_replicate_nil] using hp

theorem hashtable_rehash_placement (hash : Cell → Int) (h : hashtable_t)
    (n : Nat) :
    ∀ i, ∀ kv ∈ bget (hashtable_rehash hash h n).buckets i,
      bucket_for_hash (hash kv.1) (n ||| 1) = i := by
  show ∀ i, ∀ kv ∈ bget (h.buckets.flatten.foldl (rehash_step hash (n ||| 1))
    (List.replicate (n ||| 1) [])) i, _
  apply foldl_rehash_step_placement hash (n ||| 1) (lor_one_pos n)
    h.buckets.flatten (List.replicate (n ||| 1) []) (by simp)
  intro i kv hkv
  rw [bget_replicate_nil] at hkv
  simp at hkv

/-! ## Characterisations of `fn_hashtable_put` and `hashtable_add` -/

theorem fn_hashtable_put_found {hash : Cell → Int} {h : hashtable_t}
    {key value : Cell} {kv : Cell × Cell}
    (hfind : assoc_find key
      (bget h.buckets (bucket_for_hash (hash key) h.bucket_count)) = some kv)
    (hv : value ≠ MUSE_NIL) :
    fn_hashtable_put hash h key value =
      { count := h.count,
        buckets := bset h.buckets (bucket_for_hash (hash key) h.bucket_count)
          (assoc_replace key value
            (bget h.buckets (bucket_for_hash (hash key) h.bucket_count))) } := by
  simp only [fn_hashtable_put, hfind]
  rw [if_neg hv]

theorem fn_hashtable_put_found_nil {hash : Cell → Int} {h : hashtable_t}
    {key : Cell} {kv : Cell × Cell}
    (hfind : assoc_find key
      (bget h.buckets (bucket_for_hash (hash key) h.bucket_count)) = some kv) :
    fn_hashtable_put hash h key MUSE_NIL =
      { count := h.count - 1,
        buckets := bset h.buckets (bucket_for_hash (hash key) h.bucket_count)
          (assoc_remove key
            (bget h.buckets (bucket_for_hash (hash key) h.bucket_count))) } := by
  simp [fn_hashtable_put, hfind]

theorem fn_hashtable_put_absent {hash : Cell → Int} {h : hashtable_t}
    {key value : Cell}
    (hfind : assoc_find key
      (bget h.buckets (bucket_for_hash (hash key) h.bucket_count)) = none)
    (hv : value ≠ MUSE_NIL) :
    fn_hashtable_put hash h key value = hashtable_add hash h key value := by
  simp only [fn_hashtable_put, hfind]
  rw [if_neg hv]

theorem hashtable_add_count (hash : Cell → Int) (h : hashtable_t)
    (key value : Cell) :
    (hashtable_add hash h key value).count = h.count + 1 := by
  unfold hashtable_add
  by_cases hc : h.count + 1 ≥ 2 * (h.bucket_count : Int) <;>
    simp [hc, hashtable_rehash_count]

theorem hashtable_add_bucket_count (hash : Cell → Int) (h : hashtable_t)
    (key value : Cell) :
    (hashtable_add hash h key value).bucket_count =
      (if h.count + 1 ≥ 2 * (h.bucket_count : Int)
       then hashtable_rehash hash h (h.bucket_count * 2)
       else h).bucket_count := by
  unfold hashtable_add hashtable_t.bucket_count
  exact length_bset _ _ _

theorem fn_hashtable_put_bucket_count (hash : Cell → Int) (h : hashtable_t)
    (key value : Cell) :
    (fn_hashtable_put hash h key value).bucket_count = h.bucket_count ∨
    (fn_hashtable_put hash h key value).bucket_count % 2 = 1 := by
  cases hfind : assoc_find key
      (bget h.buckets (bucket_for_hash (hash key) h.bucket_count)) with
  | some kv =>
    by_cases hv : value = MUSE_NIL
    · left
      rw [hv, fn_hashtable_put_found_nil hfind]
      exact length_bset _ _ _
    · left
      rw [fn_hashtable_put_found hfind hv]
      exact length_bset _ _ _
  | none =>
    by_cases hv : value = MUSE_NIL
    · left
      simp [fn_hashtable_put, hfind, hv]
    · rw [fn_hashtable_put_absent hfind hv, hashtable_add_bucket_count]
      by_cases hc : h.count + 1 ≥ 2 * (h.bucket_count : Int)
      · right
        rw [if_pos hc, hashtable_rehash_bucket_count]
        exact lor_one_mod_two _
      · left
        rw [if_neg hc]

/-! ## The load-factor invariant is preserved by every call through the
hashtable's entry point -/

theorem fn_hashtable_put_invariant (hash : Cell → Int) (h : hashtable_t)
    (key value : Cell)
    (hbc : 0 < h.bucket_count) (hcnt : h.count < 2 * (h.bucket_count : Int)) :
    0 < (fn_hashtable_put hash h key value).bucket_count ∧
    (fn_hashtable_put hash h key value).count <
      2 * ((fn_hashtable_put hash h key value).bucket_count : Int) := by
  cases hfind : assoc_find key
      (bget h.buckets (bucket_for_hash (hash key) h.bucket_count)) with
  | some kv =>
    by_cases hv : value = MUSE_NIL
    · rw [hv, fn_hashtable_put_found_nil hfind]
      have hlen : (bset h.buckets (bucket_for_hash (hash key) h.bucket_count)
          (assoc_remove key (bget h.buckets
            (bucket_for_hash (hash key) h.bucket_count)))).length
          = h.buckets.length := length_bset _ _ _
      constructor
      · show 0 < (bset _ _ _).length
        rw [hlen]; exact hbc
      · show h.count - 1 < 2 * ((bset _ _ _).length : Int)
        rw [hlen]
        have hbl : (h.bucket_count : Int) = (h.buckets.length : Int) := rfl
        omega
    · rw [fn_hashtable_put_found hfind hv]
      have hlen : (bset h.buckets (bucket_for_hash (hash key) h.bucket_count)
          (assoc_replace key value (bget h.buckets
            (bucket_for_hash (hash key) h.bucket_count)))).length
          = h.buckets.length := length_bset _ _ _
      constructor
      · show 0 < (bset _ _ _).length
        rw [hlen]; exact hbc
      · show h.count < 2 * ((bset _ _ _).length : Int)
        rw [hlen]; exact hcnt
  | none =>
    by_cases hv : value = MUSE_NIL
    · simp only [fn_hashtable_put, hfind, if_pos hv]
      exact ⟨hbc, hcnt⟩
    · rw [fn_hashtable_put_absent hfind hv]
      have hcount := hashtable_add_count hash h key value
      have hbck := hashtable_add_bucket_count hash h key value
      by_cases hc : h.count + 1 ≥ 2 * (h.bucket_count : Int)
      · rw [if_pos hc, hashtable_rehash_bucket_count] at hbck
        have hodd := lor_one_eq (h.bucket_count * 2)
        have hdiv : h.bucket_count * 2 / 2 = h.bucket_count := by omega
        rw [hdiv] at hodd
        constructor
        · rw [hbck, hodd]; omega
        · rw [hcount, hbck, hodd]
          push_cast
          omega
      · rw [if_neg hc] at hbck
        constructor
        · rw [hbck]; exact hbc
        · rw [hcount, hbck]; omega

/-! ## Well-formedness consequences -/

theorem wf_count_key_le_one {hash : Cell → Int} {h : hashtable_t}
    (hwf : h.WF hash) (key : Cell) (i : Nat) :
    ((bget h.buckets i).map Prod.fst).count key ≤ 1 := by
  have h1 : ((bget h.buckets i).map Prod.fst).Sublist
      (h.buckets.flatten.map Prod.fst) :=
    (bget_sublist_flatten h.buckets i).map Prod.fst
  exact le_trans (h1.count_le key) (List.nodup_iff_count_le_one.1 hwf.2.2 key)

theorem wf_no_key_of_find_none {hash : Cell → Int} {h : hashtable_t} {key : Cell}
    (hwf : h.WF hash)
    (hfind : assoc_find key
      (bget h.buckets (bucket_for_hash (hash key) h.bucket_count)) = none) :
    ∀ kv ∈ h.buckets.flatten, kv.1 ≠ key := by
  intro kv hmem hk
  obtain ⟨i, hi, hbi⟩ := mem_flatten_iff_bget.1 hmem
  have hplace := hwf.2.1 i hi kv hbi
  rw [hk] at hplace
  have hplace' : bucket_for_hash (hash key) h.bucket_count = i := hplace
  rw [← hplace'] at hbi
  exact assoc_find_ne_none_of_mem hbi hk hfind

/-! ## Vector and port helper lemmas -/

theorem muse_array_to_list_id (xs : List Cell) :
    muse_array_to_list xs.length xs 1 = xs := by
  induction xs with
  | nil => rfl
  | cons a t ih => simp [muse_array_to_list, ih]

theorem fn_vector_to_list_eq_slots (v : vector_t) :
    fn_vector_to_list v = v.slots :=
  muse_array_to_list_id v.slots

theorem take_prefix_append (l : List Nat) (n : Nat) :
    l.take n ++ l.drop (l.take n).length = l := by
  rw [List.length_take]
  rcases le_total n l.length with hle | hle
  · rw [min_eq_left hle]
    exact List.take_append_drop n l
  · rw [min_eq_right hle, List.take_of_length_le hle, List.drop_length,
      List.append_nil]

theorem foldl_parse_flags_snd (for_reading : Cell) (args : List Cell)
    (acc : Bool × Bool) :
    (args.foldl
      (fun rw flag =>
        if flag = for_reading then (true, rw.2)
        else if flag = for_reading then (rw.1, true)
        else rw) acc).2 = acc.2 := by
  induction args generalizing acc with
  | nil => rfl
  | cons f args ih =>
    rw [List.foldl_cons, ih]
    by_cases hf : f = for_reading <;> simp [hf]

/-! ## Claim theorems -/

/-- C2: for every hashtable satisfying the reachable-state invariant
(at least one bucket and `count < 2 * bucket_count`, as established by
construction) and every sequence of calls through the hashtable's call entry
point, after each call the pair count is strictly less than twice the bucket
count: `hashtable_add` rehashes before the load-factor bound would be
exceeded.  (Stated for arbitrary argument sequences, so it covers every
insertion prefix; deletions and value updates also preserve the bound.) -/
theorem hashtable_load_factor (hash : Cell → Int) (h : hashtable_t)
    (kvs : List (Cell × Cell))
    (hbc : 0 < h.bucket_count) (hcnt : h.count < 2 * (h.bucket_count : Int)) :
    (hashtable_insert_seq hash h kvs).count <
      2 * ((hashtable_insert_seq hash h kvs).bucket_count : Int) := by
  induction kvs generalizing h with
  | nil => exact hcnt
  | cons kv kvs ih =>
    obtain ⟨h1, h2⟩ := fn_hashtable_put_invariant hash h kv.1 kv.2 hbc hcnt
    exact ih (fn_hashtable_put hash h kv.1 kv.2) h1 h2

/-- Witness for `hashtable_load_factor` at a concrete run: a default-size
table (7 buckets, 0 pairs) with two insertions. -/
theorem hashtable_load_factor_witness :
    (hashtable_insert_seq (fun c => c) (hashtable_init none)
      [(1, 2), (3, 4)]).count <
      2 * ((hashtable_insert_seq (fun c => c) (hashtable_init none)
        [(1, 2), (3, 4)]).bucket_count : Int) :=
  hashtable_load_factor (fun c => c) (hashtable_init none) [(1, 2), (3, 4)]
    (by decide) (by decide)

/-- C3 (counterexample): constructing a hashtable with requested size 4 gives
an *even* bucket count of 4 — `hashtable_init` does not force the requested
size odd, so the claim "the bucket count is odd immediately after construction
with any requested size" is false. -/
theorem bucket_count_odd_counterexample :
    (hashtable_init (some 4)).bucket_count = 4 ∧
    (hashtable_init (some 4)).bucket_count % 2 = 0 := by
  constructor <;> rfl

/-- C3 (amended): the bucket count is odd after default construction (7) and
after every rehash (the new bucket count is OR-ed with 1), and every call
through the call entry point preserves oddness (it either keeps the bucket
array or rehashes); only construction with an explicit even requested size
yields an even bucket count. -/
theorem bucket_count_odd_amended :
    (hashtable_init none).bucket_count % 2 = 1 ∧
    (∀ (hash : Cell → Int) (h : hashtable_t) (n : Nat),
      (hashtable_rehash hash h n).bucket_count % 2 = 1) ∧
    (∀ (hash : Cell → Int) (h : hashtable_t) (key value : Cell),
      h.bucket_count % 2 = 1 →
      (fn_hashtable_put hash h key value).bucket_count % 2 = 1) := by
  refine ⟨rfl, ?_, ?_⟩
  · intro hash h n
    rw [hashtable_rehash_bucket_count]
    exact lor_one_mod_two n
  · intro hash h key value hodd
    rcases fn_hashtable_put_bucket_count hash h key value with heq | hre
    · rw [heq]; exact hodd
    · exact hre

/-- Witness for `bucket_count_odd_amended`: its entry-point clause evaluated
on a concrete insertion into a default table. -/
theorem bucket_count_odd_amended_witness :
    (fn_hashtable_put (fun c => c) (hashtable_init none) 1 2).bucket_count % 2
      = 1 :=
  bucket_count_odd_amended.2.2 (fun c => c) (hashtable_init none) 1 2 (by decide)

/-- C4: the flag-parsing loop of `fileport_init` can never set the write flag:
both branches compare the argument with the symbol `for-reading`
(muse_builtin_fileport.c:55 and 57), so the second branch is dead, and with
the write flag clear the `fopen` mode string is always `"rb"` — the stream is
never opened writable from this code path.  This contradicts the documented
behaviour of `(open-file "filename.txt" ['for-reading 'for-writing])`. -/
theorem fileport_write_flag_never_set (for_reading : Cell) (args : List Cell) :
    (fileport_parse_flags for_reading args).2 = false ∧
    ∀ read_flag : Bool, fileport_fopen_mode read_flag false = "rb" := by
  constructor
  · exact foldl_parse_flags_snd for_reading args (false, false)
  · intro r; cases r <;> rfl

/-- C5 (counterexample): after a failed open, `fileport_read` does *not*
detect and report the missing stream — it falls back to raw `read` on the
zero-initialised descriptor 0 (the standard-input descriptor), i.e. it
performs I/O on some other stream. -/
theorem fileport_missing_stream_counterexample :
    fileport_read (fileport_init (fun f => (f : Int)) none) =
      port_io_action.fromDesc 0 ∧
    fileport_read (fileport_init (fun f => (f : Int)) none) ≠
      port_io_action.reportMissingStream := by
  constructor
  · rfl
  · decide

/-- C5 (amended): a failed open leaves the port with no stream handle and
signals nothing (the error flag stays 0, `fileport_init` returns normally),
and every subsequent read or write on that port falls back to raw descriptor
I/O on the stored descriptor — which is 0, the standard-input descriptor —
instead of detecting the missing stream. -/
theorem fileport_missing_stream_amended (fileno : Nat → Int) :
    (fileport_init fileno none).file = none ∧
    (fileport_init fileno none).error = 0 ∧
    fileport_read (fileport_init fileno none) = port_io_action.fromDesc 0 ∧
    fileport_write (fileport_init fileno none) = port_io_action.fromDesc 0 :=
  ⟨rfl, rfl, rfl, rfl⟩

/-- C6 (counterexample): on a platform where the writer emits no header
(non-Windows), a payload that itself begins with the 3-byte UTF-8 marker loses
its first three bytes on re-reading: `discard_utf8_header` strips them as if
they were a header. -/
theorem port_header_roundtrip_counterexample :
    fileport_reopen_read false (k_utf8_header ++ [65]) = [65] ∧
    fileport_reopen_read false (k_utf8_header ++ [65]) ≠ k_utf8_header ++ [65] := by
  constructor <;> decide

/-- C6 (amended): when the writer emits the marker header (Windows builds),
reopening recovers the payload exactly, for every payload — including payloads
that begin with the marker; when no header is emitted, the payload is
recovered exactly iff it does not begin with the marker (a leading marker is
silently stripped, the case refuted by the counterexample). -/
theorem port_header_roundtrip_amended :
    (∀ S : List Nat, fileport_reopen_read true S = S) ∧
    (∀ S : List Nat, S.take 3 ≠ k_utf8_header → fileport_reopen_read false S = S) := by
  constructor
  · intro S
    show discard_utf8_header (write_utf8_header true [] ++ S) = S
    have hw : write_utf8_header true [] = k_utf8_header := by
      simp [write_utf8_header]
    rw [hw]
    have htake : (k_utf8_header ++ S).take 3 = k_utf8_header := rfl
    have hdrop : (k_utf8_header ++ S).drop 3 = S := rfl
    simp only [discard_utf8_header, htake, hdrop]
    simp [k_utf8_header]
  · intro S hS
    show discard_utf8_header (write_utf8_header false [] ++ S) = S
    have hw : write_utf8_header false [] = [] := by
      simp [write_utf8_header]
    rw [hw, List.nil_append]
    simp only [discard_utf8_header]
    rw [if_neg]
    · exact take_prefix_append S 3
    · rintro ⟨-, hc⟩
      exact hS hc

/-- Witness for `port_header_roundtrip_amended`: the no-header clause at a
concrete marker-free payload. -/
theorem port_header_roundtrip_amended_witness :
    fileport_reopen_read false [65, 66] = [65, 66] :=
  port_header_roundtrip_amended.2 [65, 66] (by decide)

/-- C7: for a vector of length N and integer index i, the get and set paths of
the vector's call entry point are defined iff `0 ≤ i < N` (out of range is the
`muse_assert` contract violation, modelled as `none`), and under that
precondition the access never faults: get returns the slot value. -/
theorem vector_bounds (v : vector_t) (index : Int) (value : Cell) :
    ((fn_vector_get v index).isSome ↔ 0 ≤ index ∧ index < (v.length : Int)) ∧
    ((fn_vector_set v index value).isSome ↔ 0 ≤ index ∧ index < (v.length : Int)) ∧
    (0 ≤ index ∧ index < (v.length : Int) →
      fn_vector_get v index = some (v.slots.getD index.toNat MUSE_NIL)) := by
  unfold fn_vector_get fn_vector_set vector_t.length
  by_cases hc : 0 ≤ index ∧ index < (v.slots.length : Int) <;> simp [hc]

/-- Witness for `vector_bounds`: its in-range clause evaluated on a concrete
vector and index. -/
theorem vector_bounds_witness :
    fn_vector_get { slots := [5, 6, 7] } 1 =
      some (List.getD [5, 6, 7] (Int.toNat 1) MUSE_NIL) :=
  (vector_bounds { slots := [5, 6, 7] } 1 0).2.2 (by decide)

/-- C8 (counterexample): the empty vector does not round-trip:
`fn_vector_to_list` of the length-0 vector is the empty list, and
`fn_list_to_vector` of the empty list returns `MUSE_NIL` (modelled `none`),
not a vector. -/
theorem vector_roundtrip_counterexample :
    fn_list_to_vector (fn_vector_to_list { slots := ([] : List Cell) }) = none := by
  decide

/-- C8 (amended): for every vector of positive length, converting to a list
and back yields a vector equal in length and in every slot value (the empty
vector instead yields `MUSE_NIL`, the case refuted by the counterexample). -/
theorem vector_roundtrip_amended (v : vector_t) (hv : 0 < v.length) :
    fn_list_to_vector (fn_vector_to_list v) = some v := by
  rw [fn_vector_to_list_eq_slots]
  unfold fn_list_to_vector
  rw [if_pos (show 0 < v.slots.length from hv)]

/-- Witness for `vector_roundtrip_amended` on a concrete 3-slot vector. -/
theorem vector_roundtrip_amended_witness :
    fn_list_to_vector (fn_vector_to_list { slots := ([1, 2, 3] : List Cell) }) =
      some { slots := [1, 2, 3] } :=
  vector_roundtrip_amended { slots := [1, 2, 3] } (by decide)

/-- C9: rehashing (to any requested bucket count) leaves the stored pairs
unchanged: the pair count is unchanged, the multiset of stored `(key . value)`
pair cells is unchanged (a permutation — the very same pair cells are
relinked, none created), and every key that had a pair still reaches a pair
through `hashtable_get` after the rehash; only the bucket placement changes. -/
theorem rehash_stability (hash : Cell → Int) (h : hashtable_t) (n : Nat) :
    (hashtable_rehash hash h n).count = h.count ∧
    ((hashtable_rehash hash h n).buckets.flatten).Perm h.buckets.flatten ∧
    ∀ key, (∃ kv ∈ h.buckets.flatten, kv.1 = key) →
      hashtable_get hash (hashtable_rehash hash h n) key ≠ none := by
  refine ⟨rfl, hashtable_rehash_flatten_perm hash h n, ?_⟩
  rintro key ⟨kv, hmem, hk⟩
  have hmem' : kv ∈ (hashtable_rehash hash h n).buckets.flatten :=
    ((hashtable_rehash_flatten_perm hash h n).mem_iff).2 hmem
  obtain ⟨i, _, hbi⟩ := mem_flatten_iff_bget.1 hmem'
  have hplace := hashtable_rehash_placement hash h n i kv hbi
  rw [hk] at hplace
  unfold hashtable_get
  rw [hashtable_rehash_bucket_count, hplace]
  exact assoc_find_ne_none_of_mem hbi hk

/-- Witness for `rehash_stability`: its reachability clause evaluated on a
concrete one-pair table rehashed to 4 (forced to 5) buckets. -/
theorem rehash_stability_witness :
    hashtable_get (fun c => c)
      (hashtable_rehash (fun c => c) { count := 1, buckets := [[(1, 2)]] } 4) 1
      ≠ none :=
  (rehash_stability (fun c => c) { count := 1, buckets := [[(1, 2)]] } 4).2.2 1
    ⟨(1, 2), by decide, rfl⟩

/-- C10: invoking the hashtable with `(key, value)` for a key already present
and a non-NIL value updates the pair in place: the pair count and the bucket
count are unchanged, and the value associated with every other key is
unchanged. -/
theorem hashtable_update_in_place (hash : Cell → Int) (h : hashtable_t)
    (key value key' : Cell)
    (hpresent : hashtable_get hash h key ≠ none)
    (hv : value ≠ MUSE_NIL)
    (hkey' : key' ≠ key) :
    (fn_hashtable_put hash h key value).count = h.count ∧
    (fn_hashtable_put hash h key value).bucket_count = h.bucket_count ∧
    fn_hashtable_get hash (fn_hashtable_put hash h key value) key' =
      fn_hashtable_get hash h key' := by
  unfold hashtable_get at hpresent
  cases hfind : assoc_find key
      (bget h.buckets (bucket_for_hash (hash key) h.bucket_count)) with
  | none => exact absurd hfind hpresent
  | some kv =>
    have hput := fn_hashtable_put_found hfind hv
    have hblt : bucket_for_hash (hash key) h.bucket_count < h.buckets.length := by
      by_contra hge
      push_neg at hge
      rw [bget_eq_nil_of_le _ _ hge] at hfind
      simp [assoc_find] at hfind
    refine ⟨by rw [hput], ?_, ?_⟩
    · rw [hput]
      exact length_bset _ _ _
    · have hbck : (fn_hashtable_put hash h key value).bucket_count
          = h.bucket_count := by
        rw [hput]; exact length_bset _ _ _
      unfold fn_hashtable_get hashtable_get
      rw [hbck, hput]
      by_cases hbb : bucket_for_hash (hash key') h.bucket_count
          = bucket_for_hash (hash key) h.bucket_count
      · rw [hbb, bget_bset_self _ _ _ hblt, assoc_find_replace_ne hkey']
      · rw [bget_bset_ne _ _ _ _ hbb]

/-- Witness for `hashtable_update_in_place` on a concrete one-pair table. -/
theorem hashtable_update_in_place_witness :
    (fn_hashtable_put (fun c => c) { count := 1, buckets := [[(1, 2)]] } 1 3).count
      = ({ count := 1, buckets := [[(1, 2)]] } : hashtable_t).count ∧
    (fn_hashtable_put (fun c => c) { count := 1, buckets := [[(1, 2)]] } 1 3).bucket_count
      = ({ count := 1, buckets := [[(1, 2)]] } : hashtable_t).bucket_count ∧
    fn_hashtable_get (fun c => c)
      (fn_hashtable_put (fun c => c) { count := 1, buckets := [[(1, 2)]] } 1 3) 2
      = fn_hashtable_get (fun c => c) { count := 1, buckets := [[(1, 2)]] } 2 :=
  hashtable_update_in_place (fun c => c) { count := 1, buckets := [[(1, 2)]] }
    1 3 2 (by decide) (by decide) (by decide)

/-- C1: hashtable identity.  For every well-formed hashtable, key `K` and
non-NIL value `V`: invoking the table with `(K, V)` and then with `K` alone
returns `V`; and invoking the updated table with `(K, NIL)` removes `K`, so a
subsequent single-argument invocation with `K` returns NIL. -/
theorem hashtable_identity (hash : Cell → Int) (h : hashtable_t)
    (key value : Cell) (hwf : h.WF hash) (hv : value ≠ MUSE_NIL) :
    fn_hashtable_get hash (fn_hashtable_put hash h key value) key = value ∧
    fn_hashtable_get hash
      (fn_hashtable_put hash (fn_hashtable_put hash h key value) key MUSE_NIL)
      key = MUSE_NIL := by
  cases hfind : assoc_find key
      (bget h.buckets (bucket_for_hash (hash key) h.bucket_count)) with
  | some kv =>
    -- the key is already present: its pair's value is replaced in place
    have hput := fn_hashtable_put_found hfind hv
    have hblt : bucket_for_hash (hash key) h.bucket_count < h.buckets.length := by
      by_contra hge
      push_neg at hge
      rw [bget_eq_nil_of_le _ _ hge] at hfind
      simp [assoc_find] at hfind
    have hbck : (fn_hashtable_put hash h key value).bucket_count
        = h.bucket_count := by
      rw [hput]; exact length_bset _ _ _
    have hbget : bget (fn_hashtable_put hash h key value).buckets
        (bucket_for_hash (hash key) h.bucket_count)
        = assoc_replace key value
            (bget h.buckets (bucket_for_hash (hash key) h.bucket_count)) := by
      rw [hput]
      exact bget_bset_self _ _ _ hblt
    have hfind1 : assoc_find key
        (bget (fn_hashtable_put hash h key value).buckets
          (bucket_for_hash (hash key)
            (fn_hashtable_put hash h key value).bucket_count)) =
        some (kv.1, value) := by
      rw [hbck, hbget]
      exact assoc_find_replace hfind
    constructor
    · unfold fn_hashtable_get hashtable_get
      rw [hfind1]
    · have hput2 := fn_hashtable_put_found_nil hfind1
      have hlen1 : (fn_hashtable_put hash h key value).buckets.length
          = h.buckets.length := by
        rw [hput]; exact length_bset _ _ _
      have hblt1 : bucket_for_hash (hash key)
          (fn_hashtable_put hash h key value).bucket_count
          < (fn_hashtable_put hash h key value).buckets.length := by
        rw [hbck, hlen1]; exact hblt
      have hbck2 : (fn_hashtable_put hash (fn_hashtable_put hash h key value)
          key MUSE_NIL).bucket_count
          = (fn_hashtable_put hash h key value).bucket_count := by
        rw [hput2]; exact length_bset _ _ _
      have hbget2 : bget
          (fn_hashtable_put hash (fn_hashtable_put hash h key value)
            key MUSE_NIL).buckets
          (bucket_for_hash (hash key)
            (fn_hashtable_put hash h key value).bucket_count)
          = assoc_remove key
              (bget (fn_hashtable_put hash h key value).buckets
                (bucket_for_hash (hash key)
                  (fn_hashtable_put hash h key value).bucket_count)) := by
        rw [hput2]
        exact bget_bset_self _ _ _ hblt1
      unfold fn_hashtable_get hashtable_get
      rw [hbck2, hbget2, hbck, hbget]
      have hc1 : ((assoc_replace key value
          (bget h.buckets (bucket_for_hash (hash key) h.bucket_count))).map
            Prod.fst).count key ≤ 1 := by
        rw [assoc_replace_keys]
        exact wf_count_key_le_one hwf key _
      rw [assoc_remove_find_none hc1]
  | none =>
    -- the key is absent: a fresh pair is added, possibly after a rehash
    have hputadd := fn_hashtable_put_absent hfind hv
    set h' := if h.count + 1 ≥ 2 * (h.bucket_count : Int)
      then hashtable_rehash hash h (h.bucket_count * 2) else h with hh'
    have hadd : hashtable_add hash h key value =
        { count := h'.count + 1,
          buckets := bset h'.buckets
            (bucket_for_hash (hash key) h'.bucket_count)
            ((key, value) :: bget h'.buckets
              (bucket_for_hash (hash key) h'.bucket_count)) } := rfl
    have hput1eq : fn_hashtable_put hash h key value =
        { count := h'.count + 1,
          buckets := bset h'.buckets
            (bucket_for_hash (hash key) h'.bucket_count)
            ((key, value) :: bget h'.buckets
              (bucket_for_hash (hash key) h'.bucket_count)) } :=
      hputadd.trans hadd
    have hbc' : 0 < h'.bucket_count := by
      rw [hh']
      by_cases hc : h.count + 1 ≥ 2 * (h.bucket_count : Int)
      · rw [if_pos hc, hashtable_rehash_bucket_count]
        exact lor_one_pos _
      · rw [if_neg hc]; exact hwf.1
    have hno' : ∀ kv ∈ h'.buckets.flatten, kv.1 ≠ key := by
      have hno := wf_no_key_of_find_none hwf hfind
      rw [hh']
      by_cases hc : h.count + 1 ≥ 2 * (h.bucket_count : Int)
      · rw [if_pos hc]
        intro kv hmem
        exact hno kv
          (((hashtable_rehash_flatten_perm hash h _).mem_iff).1 hmem)
      · rw [if_neg hc]; exact hno
    have hblt' : bucket_for_hash (hash key) h'.bucket_count
        < h'.buckets.length := bucket_for_hash_lt _ _ hbc'
    have hbck1 : (fn_hashtable_put hash h key value).bucket_count
        = h'.bucket_count := by
      rw [hput1eq]; exact length_bset _ _ _
    have hbget1 : bget (fn_hashtable_put hash h key value).buckets
        (bucket_for_hash (hash key) h'.bucket_count)
        = (key, value) :: bget h'.buckets
            (bucket_for_hash (hash key) h'.bucket_count) := by
      rw [hput1eq]
      exact bget_bset_self _ _ _ hblt'
    have hfind1 : assoc_find key
        (bget (fn_hashtable_put hash h key value).buckets
          (bucket_for_hash (hash key)
            (fn_hashtable_put hash h key value).bucket_count)) =
        some (key, value) := by
      rw [hbck1, hbget1]
      simp [assoc_find]
    constructor
    · unfold fn_hashtable_get hashtable_get
      rw [hfind1]
    · have hput2 := fn_hashtable_put_found_nil hfind1
      have hblt1 : bucket_for_hash (hash key)
          (fn_hashtable_put hash h key value).bucket_count
          < (fn_hashtable_put hash h key value).buckets.length := by
        rw [hbck1, hput1eq]
        show _ < (bset _ _ _).length
        rw [length_bset]
        exact hblt'
      have hbck2 : (fn_hashtable_put hash (fn_hashtable_put hash h key value)
          key MUSE_NIL).bucket_count
          = (fn_hashtable_put hash h key value).bucket_count := by
        rw [hput2]; exact length_bset _ _ _
      have hbget2 : bget
          (fn_hashtable_put hash (fn_hashtable_put hash h key value)
            key MUSE_NIL).buckets
          (bucket_for_hash (hash key)
            (fn_hashtable_put hash h key value).bucket_count)
          = assoc_remove key
              (bget (fn_hashtable_put hash h key value).buckets
                (bucket_for_hash (hash key)
                  (fn_hashtable_put hash h key value).bucket_count)) := by
        rw [hput2]
        exact bget_bset_self _ _ _ hblt1
      unfold fn_hashtable_get hashtable_get
      rw [hbck2, hbget2, hbck1, hbget1]
      have hrem : assoc_remove key ((key, value) :: bget h'.buckets
          (bucket_for_hash (hash key) h'.bucket_count))
          = bget h'.buckets (bucket_for_hash (hash key) h'.bucket_count) := by
        simp [assoc_remove]
      rw [hrem]
      have hnone : assoc_find key
          (bget h'.buckets (bucket_for_hash (hash key) h'.bucket_count))
          = none := by
        apply assoc_find_eq_none_iff.2
        intro kv hmem
        exact hno' kv (mem_bget_flatten hmem)
      rw [hnone]

/-- Witness for `hashtable_identity`: the full insert/lookup/delete/lookup
round on a freshly constructed default table. -/
theorem hashtable_identity_witness :
    fn_hashtable_get (fun c => c)
      (fn_hashtable_put (fun c => c) (hashtable_init none) 1 2) 1 = 2 ∧
    fn_hashtable_get (fun c => c)
      (fn_hashtable_put (fun c => c)
        (fn_hashtable_put (fun c => c) (hashtable_init none) 1 2) 1 MUSE_NIL) 1
      = MUSE_NIL :=
  hashtable_identity (fun c => c) (hashtable_init none) 1 2 (by decide)
    (by decide)

end MuSE
